import Mathlib

-- Shallow embedding of the globalmaptiles Rust library (src/lib.rs).
-- f64 values are modelled as exact reals where transcendental functions occur,
-- and as exact rationals where only ring operations and division by powers of
-- two occur (those are exact in f64 over the library's operating range).
-- i32 tile coordinates are modelled on Int and u32 zoom levels on Nat; the one
-- u32 wrap that occurs inside the library's operating range, the shift
-- tile_size << zoom in pixels_to_raster, is modelled explicitly mod 2^32.

open Real

-- The GlobalMercator struct; initial_resolution and origin_shift are the two
-- derived constants computed by new(), kept here as pure functions of the
-- stored tile_size (the struct never mutates them after construction).
structure GlobalMercator where
  tile_size : ℕ

-- GlobalMercator::new(tile_size)
def GlobalMercator.new (tile_size : ℕ) : GlobalMercator :=
  ⟨tile_size⟩

-- GlobalMercator::default() = new(256)
def GlobalMercator.default : GlobalMercator :=
  GlobalMercator.new 256

-- initial_resolution: 2.0 * PI * 6378137.0 / tile_size as f64
noncomputable def GlobalMercator.initial_resolution (g : GlobalMercator) : ℝ :=
  2 * π * 6378137 / g.tile_size

-- origin_shift: 2.0 * PI * 6378137.0 / 2.0
noncomputable def GlobalMercator.origin_shift (g : GlobalMercator) : ℝ :=
  2 * π * 6378137 / 2

-- lat_lon_to_meters: mx = lon * origin_shift / 180;
-- my = ln(tan((90 + lat) * PI / 360)) / (PI / 180); my = my * origin_shift / 180
noncomputable def GlobalMercator.lat_lon_to_meters (g : GlobalMercator)
    (lat lon : ℝ) : ℝ × ℝ :=
  (lon * g.origin_shift / 180,
    Real.log (Real.tan ((90 + lat) * π / 360)) / (π / 180) * g.origin_shift / 180)

-- meters_to_lat_lon: lon = mx / origin_shift * 180; lat = my / origin_shift * 180;
-- lat = 180 / PI * (2 * atan(exp(lat * PI / 180)) - PI / 2); returns (lat, lon)
noncomputable def GlobalMercator.meters_to_lat_lon (g : GlobalMercator)
    (mx my : ℝ) : ℝ × ℝ :=
  (180 / π * (2 * Real.arctan (Real.exp (my / g.origin_shift * 180 * π / 180)) - π / 2),
    mx / g.origin_shift * 180)

-- resolution(zoom) = initial_resolution / 2^zoom (f64::powi(2.0, zoom) is exact)
noncomputable def GlobalMercator.resolution (g : GlobalMercator) (zoom : ℕ) : ℝ :=
  g.initial_resolution / 2 ^ zoom

-- pixels_to_tile: tx = ceil(px / tile_size) - 1, same for ty.
-- px, py are modelled as exact rationals; division by tile_size = 256 (a power
-- of two) and f64::ceil are exact on f64, so the rational model is faithful.
def GlobalMercator.pixels_to_tile (g : GlobalMercator) (px py : ℚ) : ℤ × ℤ :=
  (⌈px / (g.tile_size : ℚ)⌉ - 1, ⌈py / (g.tile_size : ℚ)⌉ - 1)

-- pixels_to_raster: map_size = tile_size << zoom (u32, so the product wraps
-- mod 2^32; for tile_size 256 this already wraps at zoom = 24); the function
-- returns (px, map_size as f64 - py).  Valid for zoom < 32 (a shift by 32 or
-- more would be a shift-overflow error in the source language).
def GlobalMercator.pixels_to_raster (g : GlobalMercator) (px py : ℚ) (zoom : ℕ) :
    ℚ × ℚ :=
  (px, ((g.tile_size * 2 ^ zoom % 2 ^ 32 : ℕ) : ℚ) - py)

-- zoom_for_pixel_size: for i in 0..30 { if pixel_size > resolution(i) { return
-- if i != 0 { i - 1 } else { 0 } } }; panic!(...).  The loop is embedded as a
-- fuel-counted recursion starting at i = 0 with fuel 30; the panic is None.
noncomputable def GlobalMercator.zoom_for_pixel_size_loop (g : GlobalMercator)
    (ps : ℝ) : ℕ → ℕ → Option ℕ
  | _, 0 => none
  | i, fuel + 1 =>
    if g.resolution i < ps then some (if i = 0 then 0 else i - 1)
    else g.zoom_for_pixel_size_loop ps (i + 1) fuel

noncomputable def GlobalMercator.zoom_for_pixel_size (g : GlobalMercator)
    (ps : ℝ) : Option ℕ :=
  g.zoom_for_pixel_size_loop ps 0 30

-- google_tile: (tx, (powi(2.0, zoom) as i32 - 1) - ty); powi(2.0, zoom) is the
-- exact value 2^zoom for every zoom the pyramid supports (zoom <= 30)
def GlobalMercator.google_tile (g : GlobalMercator) (tx ty : ℤ) (zoom : ℕ) :
    ℤ × ℤ :=
  (tx, (2 ^ zoom - 1) - ty)

-- One loop body of quad_tree: digit = 0; if tx & mask != 0 { digit += 1 };
-- if ty & mask != 0 { digit += 2 }.  Int.land is two's-complement bitwise and,
-- agreeing with i32 & at every bit position the masks reach.
def quadDigit (tx ty mask : ℤ) : ℕ :=
  (if Int.land tx mask ≠ 0 then 1 else 0) + (if Int.land ty mask ≠ 0 then 2 else 0)

-- The digits pushed by the loop for i in (1..zoom+1).rev() with mask 1 << (i-1):
-- at recursion depth (i = n+1) the mask is 2^n, most significant first.
def quadKeyDigits (tx ty : ℤ) : ℕ → List ℕ
  | 0 => []
  | i + 1 => quadDigit tx ty (2 ^ i) :: quadKeyDigits tx ty i

-- quad_tree: let ty = (powi(2.0, zoom) - 1.0) as i32 - ty, then the loop above,
-- each digit pushed as its decimal character.
def GlobalMercator.quad_tree (g : GlobalMercator) (tx ty : ℤ) (zoom : ℕ) :
    String :=
  String.mk ((quadKeyDigits tx ((2 ^ zoom - 1) - ty) zoom).map Nat.digitChar)

-- Spec-side rendition of the quad_tree algorithm, following the wording of the
-- specification: flip ty as in google_tile, then for each bit position i from
-- zoom-1 down to 0 (mask = 1 << i) emit (bit i of tx) + 2 * (bit i of the
-- flipped ty) as a decimal character.
def quadTreeSpec (tx ty : ℤ) (zoom : ℕ) : String :=
  String.mk (((List.range zoom).reverse.map
    (fun i => quadDigit tx ((2 ^ zoom - 1) - ty) (2 ^ i))).map Nat.digitChar)

-- ## Helper lemmas

lemma quadKeyDigits_eq_range (tx ty : ℤ) : ∀ zoom : ℕ,
    quadKeyDigits tx ty zoom = (List.range zoom).reverse.map (fun i => quadDigit tx ty (2 ^ i))
  | 0 => rfl
  | z + 1 => by
    rw [List.range_succ, List.reverse_append]
    simp [quadKeyDigits, quadKeyDigits_eq_range tx ty z]

lemma quadKeyDigits_length (tx ty : ℤ) : ∀ zoom : ℕ,
    (quadKeyDigits tx ty zoom).length = zoom
  | 0 => rfl
  | z + 1 => by simp [quadKeyDigits, quadKeyDigits_length tx ty z]

lemma quadDigit_le_three (tx ty mask : ℤ) : quadDigit tx ty mask ≤ 3 := by
  unfold quadDigit
  split <;> split <;> simp

lemma quadKeyDigits_le_three (tx ty : ℤ) : ∀ zoom : ℕ,
    ∀ d ∈ quadKeyDigits tx ty zoom, d ≤ 3
  | 0 => by simp [quadKeyDigits]
  | z + 1 => by
    intro d hd
    rcases List.mem_cons.mp hd with h | h
    · exact h ▸ quadDigit_le_three tx ty (2 ^ z)
    · exact quadKeyDigits_le_three tx ty z d h

lemma digitChar_of_le_three {d : ℕ} (h : d ≤ 3) :
    d.digitChar = '0' ∨ d.digitChar = '1' ∨ d.digitChar = '2' ∨ d.digitChar = '3' := by
  interval_cases d <;> simp [Nat.digitChar]

/-- Claim C5: google_tile(tx, ty, zoom) returns (tx, (2^zoom - 1) - ty): the
first component is the unchanged tx, the second the TMS row flipped to the
top-left-origin Google/XYZ convention. -/
theorem claim_C5 (g : GlobalMercator) (tx ty : ℤ) (zoom : ℕ) :
    g.google_tile tx ty zoom = (tx, (2 ^ zoom - 1) - ty) :=
  rfl

/-- Claim C7: resolution(z+1) = resolution(z) / 2 exactly, and resolution(0) =
initial_resolution. -/
theorem claim_C7 (g : GlobalMercator) (z : ℕ) :
    g.resolution (z + 1) = g.resolution z / 2 ∧
    g.resolution 0 = g.initial_resolution := by
  constructor
  · unfold GlobalMercator.resolution
    rw [pow_succ, div_div]
  · unfold GlobalMercator.resolution
    rw [pow_zero, div_one]

/-- Claim C1: quad_tree(tx, ty, zoom) first flips ty to 2^zoom - 1 - ty (the
google_tile flip) and then, for each bit position i from zoom-1 down to 0 with
mask 1 << i, emits the decimal digit (bit i of tx) + 2 * (bit i of the flipped
ty), most significant first: it coincides with quadTreeSpec, the direct
rendition of that algorithm. -/
theorem claim_C1 (g : GlobalMercator) (tx ty : ℤ) (zoom : ℕ) :
    g.quad_tree tx ty zoom = quadTreeSpec tx ty zoom := by
  unfold GlobalMercator.quad_tree quadTreeSpec
  rw [quadKeyDigits_eq_range]

/-- Claim C8: quad_tree(tx, ty, zoom) always returns a string of exactly zoom
characters, each in {0, 1, 2, 3}, and the zoom = 0 key is the empty string. -/
theorem claim_C8 (g : GlobalMercator) (tx ty : ℤ) (zoom : ℕ) :
    (g.quad_tree tx ty zoom).length = zoom ∧
    (∀ c ∈ (g.quad_tree tx ty zoom).data,
      c = '0' ∨ c = '1' ∨ c = '2' ∨ c = '3') ∧
    g.quad_tree tx ty 0 = "" := by
  refine ⟨?_, ?_, ?_⟩
  · show ((quadKeyDigits _ _ zoom).map Nat.digitChar).length = zoom
    rw [List.length_map, quadKeyDigits_length]
  · intro c hc
    have hc' : c ∈ (quadKeyDigits tx ((2 ^ zoom - 1) - ty) zoom).map Nat.digitChar := hc
    obtain ⟨d, hd, rfl⟩ := List.mem_map.mp hc'
    exact digitChar_of_le_three (quadKeyDigits_le_three tx _ zoom d hd)
  · rfl

/-- Witness for claim C8 at a concrete tile. -/
theorem claim_C8_witness :
    (GlobalMercator.default.quad_tree 3 5 3).length = 3 ∧
    GlobalMercator.default.quad_tree 3 5 0 = "" :=
  ⟨(claim_C8 GlobalMercator.default 3 5 3).1,
   (claim_C8 GlobalMercator.default 3 5 3).2.2⟩

/-- Claim C2: pixels_to_tile(px, py) returns (ceil(px / tile_size) - 1,
ceil(py / tile_size) - 1), and at a pixel that is an exact positive multiple
k * tile_size of the tile size the returned index is k - 1, assigning the
boundary pixel to the tile below/left. -/
theorem claim_C2 (g : GlobalMercator) (px py : ℚ) (k : ℤ)
    (hts : 0 < g.tile_size) (hk : 0 < k) (hpx : px = k * (g.tile_size : ℚ)) :
    g.pixels_to_tile px py =
      (⌈px / (g.tile_size : ℚ)⌉ - 1, ⌈py / (g.tile_size : ℚ)⌉ - 1) ∧
    (g.pixels_to_tile px py).1 = k - 1 := by
  refine ⟨rfl, ?_⟩
  have hts' : (g.tile_size : ℚ) ≠ 0 := Nat.cast_ne_zero.mpr hts.ne'
  show ⌈px / (g.tile_size : ℚ)⌉ - 1 = k - 1
  rw [hpx, mul_div_cancel_right₀ _ hts', Int.ceil_intCast]

/-- Witness for claim C2: pixel 512 with the default tile size 256 lies on the
boundary 2 * 256 and is assigned to tile 1. -/
theorem claim_C2_witness :
    (0 < GlobalMercator.default.tile_size ∧ (0:ℤ) < 2 ∧
      (512 : ℚ) = 2 * (GlobalMercator.default.tile_size : ℚ)) ∧
    (GlobalMercator.default.pixels_to_tile 512 0).1 = 2 - 1 := by
  have h : (512 : ℚ) = 2 * (GlobalMercator.default.tile_size : ℚ) := by
    norm_num [GlobalMercator.default, GlobalMercator.new]
  exact ⟨⟨by decide, by decide, h⟩,
    (claim_C2 GlobalMercator.default 512 0 2 (by decide) (by decide) h).2⟩

/-- Claim C6 evaluated on the code: at zoom 24 with the default tile size the
u32 shift tile_size << zoom wraps mod 2^32 to 0, so pixels_to_raster(0, 0, 24)
returns raster_py = 0 while the documented formula tile_size * 2^zoom - py
gives 4294967296. -/
theorem claim_C6_eval :
    (GlobalMercator.default.pixels_to_raster 0 0 24).2 = 0 ∧
    (GlobalMercator.default.tile_size : ℚ) * 2 ^ 24 - 0 = 4294967296 ∧
    (4294967296 : ℚ) ≠ 0 := by
  refine ⟨?_, ?_, by norm_num⟩
  · show ((GlobalMercator.default.tile_size * 2 ^ 24 % 2 ^ 32 : ℕ) : ℚ) - 0 = 0
    norm_num [GlobalMercator.default, GlobalMercator.new]
  · norm_num [GlobalMercator.default, GlobalMercator.new]

-- ## The zoom_for_pixel_size scan

lemma initial_resolution_pos (g : GlobalMercator) (hts : 0 < g.tile_size) :
    0 < g.initial_resolution := by
  have h : (0:ℝ) < g.tile_size := by exact_mod_cast hts
  unfold GlobalMercator.initial_resolution
  positivity

lemma resolution_strict_anti (g : GlobalMercator) (hts : 0 < g.tile_size)
    {i j : ℕ} (h : i < j) : g.resolution j < g.resolution i := by
  unfold GlobalMercator.resolution
  exact div_lt_div_of_pos_left (initial_resolution_pos g hts) (by positivity)
    (pow_lt_pow_right₀ one_lt_two h)

lemma resolution_anti (g : GlobalMercator) (hts : 0 < g.tile_size)
    {i j : ℕ} (h : i ≤ j) : g.resolution j ≤ g.resolution i := by
  rcases h.lt_or_eq with h' | rfl
  · exact (resolution_strict_anti g hts h').le
  · exact le_rfl

lemma zfps_loop_eq_some (g : GlobalMercator) (ps : ℝ) :
    ∀ fuel i i₀ : ℕ, i ≤ i₀ → i₀ < i + fuel → g.resolution i₀ < ps →
      (∀ j, i ≤ j → j < i₀ → ps ≤ g.resolution j) →
      g.zoom_for_pixel_size_loop ps i fuel = some (if i₀ = 0 then 0 else i₀ - 1)
  | 0, i, i₀, hle, hlt, _, _ => absurd hlt (by omega)
  | fuel + 1, i, i₀, hle, hlt, hgt, hmin => by
    simp only [GlobalMercator.zoom_for_pixel_size_loop]
    rcases eq_or_lt_of_le hle with rfl | hlt'
    · rw [if_pos hgt]
    · rw [if_neg (not_lt.mpr (hmin i le_rfl hlt'))]
      exact zfps_loop_eq_some g ps fuel (i + 1) i₀ hlt' (by omega) hgt
        (fun j hj hj2 => hmin j (by omega) hj2)

lemma zfps_loop_eq_none (g : GlobalMercator) (ps : ℝ) :
    ∀ fuel i : ℕ, (∀ j, i ≤ j → j < i + fuel → ps ≤ g.resolution j) →
      g.zoom_for_pixel_size_loop ps i fuel = none
  | 0, _, _ => rfl
  | fuel + 1, i, h => by
    simp only [GlobalMercator.zoom_for_pixel_size_loop]
    rw [if_neg (not_lt.mpr (h i le_rfl (by omega)))]
    exact zfps_loop_eq_none g ps fuel (i + 1) (fun j hj hj2 => h j (by omega) (by omega))

lemma zfps_loop_le (g : GlobalMercator) (ps : ℝ) :
    ∀ fuel i z : ℕ, g.zoom_for_pixel_size_loop ps i fuel = some z →
      z + 2 ≤ i + fuel ∨ z = 0
  | 0, i, z, h => by simp [GlobalMercator.zoom_for_pixel_size_loop] at h
  | fuel + 1, i, z, h => by
    simp only [GlobalMercator.zoom_for_pixel_size_loop] at h
    by_cases hc : g.resolution i < ps
    · rw [if_pos hc] at h
      have hz := Option.some.inj h
      by_cases hi : i = 0
      · right
        rw [hi] at hz
        simpa using hz.symm
      · left
        rw [if_neg hi] at hz
        omega
    · rw [if_neg hc] at h
      rcases zfps_loop_le g ps fuel (i + 1) z h with h' | h'
      · left; omega
      · right; exact h'

/-- Claim C3: when some level i in 0..30 satisfies pixel_size > resolution(i),
zoom_for_pixel_size returns i0 - 1 for the smallest such level i0, clamped to 0
when i0 = 0; in particular it returns 0 for any pixel_size >= resolution(0). -/
theorem claim_C3 (g : GlobalMercator) (ps : ℝ) (i₀ : ℕ) (hts : 0 < g.tile_size)
    (h30 : i₀ < 30) (hgt : g.resolution i₀ < ps)
    (hmin : ∀ j, j < i₀ → ps ≤ g.resolution j) :
    g.zoom_for_pixel_size ps = some (if i₀ = 0 then 0 else i₀ - 1) ∧
    (g.resolution 0 ≤ ps → g.zoom_for_pixel_size ps = some 0) := by
  have hmain : g.zoom_for_pixel_size ps = some (if i₀ = 0 then 0 else i₀ - 1) :=
    zfps_loop_eq_some g ps 30 0 i₀ (Nat.zero_le _) (by omega) hgt
      (fun j _ hj => hmin j hj)
  refine ⟨hmain, fun hr0 => ?_⟩
  have hi : i₀ ≤ 1 := by
    by_contra hcon
    have h1 := hmin 1 (by omega)
    have hlt : g.resolution 1 < g.resolution 0 := resolution_strict_anti g hts one_pos
    linarith
  interval_cases i₀ <;> simpa using hmain

lemma default_resolution_zero_lt : GlobalMercator.default.resolution 0 < 200000 := by
  have hπ : π < 3.15 := Real.pi_lt_d2
  have h0 : (0:ℝ) < π := Real.pi_pos
  unfold GlobalMercator.resolution GlobalMercator.initial_resolution
    GlobalMercator.default GlobalMercator.new
  norm_num
  nlinarith

/-- Witness for claim C3: pixel_size 200000 exceeds resolution(0), the smallest
qualifying level is 0, and the function returns zoom 0. -/
theorem claim_C3_witness :
    0 < GlobalMercator.default.tile_size ∧
    GlobalMercator.default.zoom_for_pixel_size 200000 = some 0 := by
  refine ⟨by decide, ?_⟩
  have h := claim_C3 GlobalMercator.default 200000 0 (by decide) (by omega)
    default_resolution_zero_lt (fun j hj => absurd hj (Nat.not_lt_zero j))
  simpa using h.1

/-- Claim C4 counterexample: pixel_size exactly equal to resolution(29) is not
smaller than resolution(29), yet the scan never fires (no strict inequality
holds) and the function panics there, refuting the claim that every pixel_size
not smaller than resolution(29) returns normally. -/
theorem claim_C4_counterexample :
    ¬ (GlobalMercator.default.resolution 29 < GlobalMercator.default.resolution 29) ∧
    GlobalMercator.default.zoom_for_pixel_size
      (GlobalMercator.default.resolution 29) = none := by
  refine ⟨lt_irrefl _, ?_⟩
  show GlobalMercator.default.zoom_for_pixel_size_loop _ 0 30 = none
  refine zfps_loop_eq_none _ _ 30 0 (fun j _ hj => ?_)
  exact resolution_anti GlobalMercator.default (by decide) (by omega)

/-- Claim C4 (amended): zoom_for_pixel_size panics exactly when pixel_size is
less than or equal to resolution(29); it returns normally for every pixel_size
strictly greater than resolution(29). -/
theorem claim_C4 (g : GlobalMercator) (ps : ℝ) (hts : 0 < g.tile_size) :
    g.zoom_for_pixel_size ps = none ↔ ps ≤ g.resolution 29 := by
  constructor
  · intro hnone
    by_contra hcon
    push_neg at hcon
    have hex : ∃ i, g.resolution i < ps := ⟨29, hcon⟩
    have hspec : g.resolution (Nat.find hex) < ps := Nat.find_spec hex
    have hmin : ∀ j, j < Nat.find hex → ps ≤ g.resolution j := fun j hj =>
      not_lt.mp (Nat.find_min hex hj)
    have h30 : Nat.find hex < 30 :=
      lt_of_le_of_lt (Nat.find_min' hex hcon) (by omega)
    have hsome := zfps_loop_eq_some g ps 30 0 (Nat.find hex) (Nat.zero_le _)
      (by omega) hspec (fun j _ hj => hmin j hj)
    rw [GlobalMercator.zoom_for_pixel_size, hsome] at hnone
    exact Option.noConfusion hnone
  · intro hle
    show g.zoom_for_pixel_size_loop ps 0 30 = none
    refine zfps_loop_eq_none g ps 30 0 (fun j _ hj => ?_)
    exact le_trans hle (resolution_anti g hts (by omega))

/-- Witness for claim C4 (amended): pixel_size 0 with the default pyramid. -/
theorem claim_C4_witness :
    0 < GlobalMercator.default.tile_size ∧
    (GlobalMercator.default.zoom_for_pixel_size 0 = none ↔
      (0:ℝ) ≤ GlobalMercator.default.resolution 29) :=
  ⟨by decide, claim_C4 GlobalMercator.default 0 (by decide)⟩

/-- Claim C10: whenever zoom_for_pixel_size returns normally, the returned
zoom is at most 28: the scan tests levels 0 through 29 and yields the
preceding level. -/
theorem claim_C10 (g : GlobalMercator) (ps : ℝ) (z : ℕ)
    (h : g.zoom_for_pixel_size ps = some z) : z ≤ 28 := by
  have h' : g.zoom_for_pixel_size_loop ps 0 30 = some z := h
  rcases zfps_loop_le g ps 30 0 z h' with h'' | h'' <;> omega

lemma default_zfps_200000 :
    GlobalMercator.default.zoom_for_pixel_size 200000 = some 0 := by
  have h := zfps_loop_eq_some GlobalMercator.default 200000 30 0 0 le_rfl
    (by omega) default_resolution_zero_lt (fun j _ hj => absurd hj (Nat.not_lt_zero j))
  simpa [GlobalMercator.zoom_for_pixel_size] using h

/-- Witness for claim C10 at pixel_size 200000. -/
theorem claim_C10_witness :
    GlobalMercator.default.zoom_for_pixel_size 200000 = some 0 ∧ (0:ℕ) ≤ 28 :=
  ⟨default_zfps_200000, claim_C10 GlobalMercator.default 200000 0 default_zfps_200000⟩

/-- Claim C9: for lat strictly between -85 and 85 and lon strictly between
-180 and 180, meters_to_lat_lon inverts lat_lon_to_meters exactly in the
real-number model: the two conversions are algebraic inverses. -/
theorem claim_C9 (g : GlobalMercator) (lat lon : ℝ)
    (h1 : -85 < lat) (h2 : lat < 85) (h3 : -180 < lon) (h4 : lon < 180) :
    g.meters_to_lat_lon (g.lat_lon_to_meters lat lon).1
      (g.lat_lon_to_meters lat lon).2 = (lat, lon) := by
  have hπ : (0:ℝ) < π := Real.pi_pos
  have hOS : g.origin_shift ≠ 0 := by
    have : (0:ℝ) < g.origin_shift := by
      unfold GlobalMercator.origin_shift
      positivity
    exact this.ne'
  unfold GlobalMercator.meters_to_lat_lon GlobalMercator.lat_lon_to_meters
  simp only [Prod.mk.injEq]
  constructor
  · have harg : Real.log (Real.tan ((90 + lat) * π / 360)) / (π / 180) *
        g.origin_shift / 180 / g.origin_shift * 180 * π / 180 =
        Real.log (Real.tan ((90 + lat) * π / 360)) := by
      field_simp
      ring
    rw [harg]
    have h0 : 0 < (90 + lat) * π / 360 :=
      div_pos (mul_pos (by linarith) hπ) (by norm_num)
    have hhalf : (90 + lat) * π / 360 < π / 2 := by nlinarith
    have htan : 0 < Real.tan ((90 + lat) * π / 360) :=
      Real.tan_pos_of_pos_of_lt_pi_div_two h0 hhalf
    rw [Real.exp_log htan, Real.arctan_tan (by linarith) hhalf]
    field_simp
    ring
  · field_simp
    ring

/-- Witness for claim C9 at the origin. -/
theorem claim_C9_witness :
    ((-85:ℝ) < 0 ∧ (0:ℝ) < 85 ∧ (-180:ℝ) < 0 ∧ (0:ℝ) < 180) ∧
    GlobalMercator.default.meters_to_lat_lon
      (GlobalMercator.default.lat_lon_to_meters 0 0).1
      (GlobalMercator.default.lat_lon_to_meters 0 0).2 = (0, 0) :=
  ⟨by norm_num, claim_C9 GlobalMercator.default 0 0 (by norm_num) (by norm_num)
    (by norm_num) (by norm_num)⟩
